import Mathlib

/-!
Verification of the mcp-toolgen code generator.

This file gives a shallow embedding, in Lean 4, of the core of the
mcp-toolgen repository (CRD schema analysis, CRUD operation-token
expansion, name/case conversion, template-data emission and file
generation), translated from the Go sources in `pkg/analyzer`,
`pkg/generator` and `pkg/cmd`, and proves or refutes the specified
properties against that embedding.

Modelling conventions:
- A Go string is modelled as a `String` (for opaque identifiers) or as a
  `List Char` of its runes (for functions that iterate runes).
- Character classes (`unicode.IsUpper`, `unicode.ToLower`, ...) are
  modelled over the ASCII fragment of Unicode; all concrete inputs in
  the repository's schemas and tests are ASCII.
- Go maps are modelled as association lists carrying one possible
  iteration order; a function that iterates a map is therefore a
  function of that order, and order-independence is stated as
  invariance under `List.Perm`.
- Fallible Go functions return `GoRes`: `ok` for a normal result,
  `err` for a returned `error`, and `panicNil` for a runtime nil-pointer
  dereference (a Go panic, which is never wrapped by `%w`).
-/

namespace Toolgen

/-! ## ASCII character model

Models `unicode.IsUpper`, `unicode.ToLower`, `unicode.ToUpper`,
`unicode.IsSpace` and letter-hood on the ASCII fragment. -/

def isUpChar (c : Char) : Bool := 65 ≤ c.toNat && c.toNat ≤ 90

def isLowChar (c : Char) : Bool := 97 ≤ c.toNat && c.toNat ≤ 122

def isLetterChar (c : Char) : Bool := isUpChar c || isLowChar c

def lowChar (c : Char) : Char := if isUpChar c then Char.ofNat (c.toNat + 32) else c

def upChar (c : Char) : Char := if isLowChar c then Char.ofNat (c.toNat - 32) else c

/-! ## OperationSelector: CRUD token validation and expansion

Translated from `validateCRUDOperations` and `parseCRUDOperations` in
`pkg/cmd` (src/unnamed/part_003) and `GetResourceOperations` in
`pkg/analyzer/types.go`. Errors are modelled structurally; the Go error
messages name the offending character exactly as the constructors here
carry it. -/

inductive CRUDError where
  | empty
  | invalidChar (c : Char)
  | dupChar (c : Char)
  deriving DecidableEq, Repr

def validCRUDChar (c : Char) : Bool := c = 'c' || c = 'r' || c = 'u' || c = 'd'

def validateAux (seen : List Char) : List Char → Option CRUDError
  | [] => none
  | c :: cs =>
    if !validCRUDChar c then some (CRUDError.invalidChar c)
    else if seen.contains c then some (CRUDError.dupChar c)
    else validateAux (c :: seen) cs

def validateCRUDOperations (crud : List Char) : Option CRUDError :=
  if crud.isEmpty then some CRUDError.empty else validateAux [] crud

def expandCRUDChar (c : Char) : List String :=
  if c = 'c' then ["create"]
  else if c = 'r' then ["get", "list"]
  else if c = 'u' then ["update"]
  else if c = 'd' then ["delete"]
  else []

def dedupAux (seen : List String) : List String → List String
  | [] => []
  | x :: xs => if seen.contains x then dedupAux seen xs else x :: dedupAux (x :: seen) xs

def dedupFirstSeen (ops : List String) : List String := dedupAux [] ops

def parseCRUDOperations (crud : List Char) : List String :=
  dedupFirstSeen (crud.flatMap expandCRUDChar)

def defaultOperations : List String := ["create", "get", "list", "update", "delete"]

def getResourceOperations (selectedOperations : List String) : List String :=
  if selectedOperations.length > 0 then selectedOperations else defaultOperations

/-! ## Word splitting and the English title caser

`fieldsFunc` models `strings.FieldsFunc`; `titleCaseAux` models the
transform of `cases.Title(language.English)` from golang.org/x/text/cases,
which the sources always apply to an already-lowercased token as
`caser.String(strings.ToLower(part))` (modelled by `titleLower`).

The x/text title caser titlecases the first cased rune of every word and
lowercases every other cased rune, with word boundaries given by that
package's approximation of Unicode word breaking: it tracks a single
in-word flag, every cased rune ends up in a word, a rune that is neither
cased nor case-ignorable ends the current word, a case-ignorable rune
keeps the current word open, except that two adjacent mid-word runes
(apostrophe, full stop, colon: word-break classes MidLetter, MidNumLet
and Single Quote) also end it.  On the ASCII fragment the cased runes
are the letters and the case-ignorable runes are apostrophe (39), full
stop (46), colon (58), circumflex (94) and grave accent (96); every
other rune (digits included) is a word break. -/

def fieldsFuncAux (p : Char → Bool) (cur : List Char) : List Char → List (List Char)
  | [] => if cur.isEmpty then [] else [cur.reverse]
  | c :: cs =>
    if p c then
      if cur.isEmpty then fieldsFuncAux p [] cs
      else cur.reverse :: fieldsFuncAux p [] cs
    else fieldsFuncAux p (c :: cur) cs

def fieldsFunc (p : Char → Bool) (l : List Char) : List (List Char) :=
  fieldsFuncAux p [] l

/-- Mid-word runes of the title caser (ASCII): apostrophe, full stop,
colon. -/
def isMidChar (c : Char) : Bool := c.toNat = 39 || c.toNat = 46 || c.toNat = 58

/-- Case-ignorable runes (ASCII): the mid-word runes plus the modifier
symbols circumflex and grave accent. -/
def isCaseIgnorableChar (c : Char) : Bool := isMidChar c || c.toNat = 94 || c.toNat = 96

/-- A rune that is neither cased nor case-ignorable ends the current
word. -/
def isTitleBreakChar (c : Char) : Bool := !(isLetterChar c || isCaseIgnorableChar c)

def headIsMid : List Char → Bool
  | [] => false
  | c :: _ => isMidChar c

/-- The in-word flag after a non-cased rune `c`: a word break clears it,
and so does a mid-word rune directly followed by another one. -/
def titleNextState (m : Bool) (c : Char) (nextMid : Bool) : Bool :=
  if isTitleBreakChar c then false
  else if isMidChar c && nextMid then false
  else m

/-- The title-casing transform: `m` is the in-word flag (false at the
start of a fresh caser). A cased rune is titlecased when no word is
open and lowercased otherwise, and opens a word either way; any other
rune is copied and updates the flag per `titleNextState`. -/
def titleCaseAux (m : Bool) : List Char → List Char
  | [] => []
  | c :: cs =>
    if isLetterChar c then
      (if m then lowChar c else upChar c) :: titleCaseAux true cs
    else
      c :: titleCaseAux (titleNextState m c (headIsMid cs)) cs

def titleLower (w : List Char) : List Char := titleCaseAux false (w.map lowChar)

/-! ## SchemaAnalyzer: naming helpers

Translated from `pkg/analyzer/schema.go`. -/

/-- Separators used by `toGoName` in schema.go (no whitespace, unlike the
generator's case helpers). -/
def isGoNameSep (c : Char) : Bool := c = '-' || c = '_' || c = '.'

def toGoName (name : String) : String :=
  String.mk (List.flatten
    (((fieldsFunc isGoNameSep name.toList).filter (fun part => !part.isEmpty)).map titleLower))

def generatePropertyTypeName (parentType propName : String) : String :=
  parentType ++ toGoName propName

def generateItemTypeName (arrayType : String) : String :=
  if arrayType.endsWith "s" then String.mk arrayType.toList.dropLast ++ "Item"
  else arrayType ++ "Item"

/-- Models `fmt.Sprintf("%q", s)` for the escapes that can occur in the
identifiers and descriptions handled here. -/
def goEscapeChar (c : Char) : List Char :=
  if c = '\\' then ['\\', '\\']
  else if c = '"' then ['\\', '"']
  else if c = '\n' then ['\\', 'n']
  else if c = '\t' then ['\\', 't']
  else [c]

def goQuote (s : String) : String :=
  "\"" ++ String.mk (s.toList.flatMap goEscapeChar) ++ "\""

/-! ## The schema and type-info trees

`JSONSchemaProps` models the subset of `apiextensionsv1.JSONSchemaProps`
the analyzer and emitter read. `properties` is an association list that
also carries one possible iteration order of the underlying (unordered)
Go map. The two nested `Option`s of `items` model the two pointers
`Items *JSONSchemaPropsOrArray` and `Items.Schema *JSONSchemaProps` (so
`some none` is a non-nil `Items` whose `Schema` is nil, e.g. the
`JSONSchemas` tuple variant); `additionalProperties` likewise. The
numeric bounds (`*float64`/`*int64` in Go) are modelled at integer
precision. -/

inductive JSONSchemaProps where
  | mk (type : String) (format : String) (description : String)
      (enum : List String)
      (properties : List (String × JSONSchemaProps))
      (required : List String)
      (items : Option (Option JSONSchemaProps))
      (additionalProperties : Option (Option JSONSchemaProps))
      (minimum : Option Int) (maximum : Option Int)
      (minLength : Option Int) (maxLength : Option Int)
      (pattern : String)

def JSONSchemaProps.type : JSONSchemaProps → String
  | mk t _ _ _ _ _ _ _ _ _ _ _ _ => t

def JSONSchemaProps.format : JSONSchemaProps → String
  | mk _ f _ _ _ _ _ _ _ _ _ _ _ => f

def JSONSchemaProps.description : JSONSchemaProps → String
  | mk _ _ d _ _ _ _ _ _ _ _ _ _ => d

def JSONSchemaProps.enum : JSONSchemaProps → List String
  | mk _ _ _ e _ _ _ _ _ _ _ _ _ => e

def JSONSchemaProps.properties : JSONSchemaProps → List (String × JSONSchemaProps)
  | mk _ _ _ _ p _ _ _ _ _ _ _ _ => p

def JSONSchemaProps.required : JSONSchemaProps → List String
  | mk _ _ _ _ _ r _ _ _ _ _ _ _ => r

def JSONSchemaProps.items : JSONSchemaProps → Option (Option JSONSchemaProps)
  | mk _ _ _ _ _ _ i _ _ _ _ _ _ => i

def JSONSchemaProps.additionalProperties : JSONSchemaProps → Option (Option JSONSchemaProps)
  | mk _ _ _ _ _ _ _ a _ _ _ _ _ => a

def JSONSchemaProps.minimum : JSONSchemaProps → Option Int
  | mk _ _ _ _ _ _ _ _ m _ _ _ _ => m

def JSONSchemaProps.maximum : JSONSchemaProps → Option Int
  | mk _ _ _ _ _ _ _ _ _ m _ _ _ => m

def JSONSchemaProps.minLength : JSONSchemaProps → Option Int
  | mk _ _ _ _ _ _ _ _ _ _ m _ _ => m

def JSONSchemaProps.maxLength : JSONSchemaProps → Option Int
  | mk _ _ _ _ _ _ _ _ _ _ _ m _ => m

def JSONSchemaProps.pattern : JSONSchemaProps → String
  | mk _ _ _ _ _ _ _ _ _ _ _ _ p => p

/-- A plain schema with only a `type` (and optional `format`) set, as the
leaf schemas in the repository's fixtures. -/
def simpleSchema (type : String) : JSONSchemaProps :=
  JSONSchemaProps.mk type "" "" [] [] [] none none none none none none ""

/-- An object schema with the given properties (in one iteration order)
and required list. -/
def objectSchema (props : List (String × JSONSchemaProps)) (required : List String) :
    JSONSchemaProps :=
  JSONSchemaProps.mk "object" "" "" [] props required none none none none none none ""

/-- `GoTypeInfo` from `pkg/analyzer/schema.go`; `properties` is an
association list modelling the `map[string]*GoTypeInfo` with one
iteration order. -/
inductive GoTypeInfo where
  | mk (name : String) (jsonName : String) (goType : String) (jsonTag : String)
      (description : String) (required : Bool)
      (properties : List (String × GoTypeInfo))
      (items : Option GoTypeInfo)

def GoTypeInfo.name : GoTypeInfo → String
  | mk n _ _ _ _ _ _ _ => n

def GoTypeInfo.jsonName : GoTypeInfo → String
  | mk _ j _ _ _ _ _ _ => j

def GoTypeInfo.goType : GoTypeInfo → String
  | mk _ _ g _ _ _ _ _ => g

def GoTypeInfo.jsonTag : GoTypeInfo → String
  | mk _ _ _ t _ _ _ _ => t

def GoTypeInfo.description : GoTypeInfo → String
  | mk _ _ _ _ d _ _ _ => d

def GoTypeInfo.required : GoTypeInfo → Bool
  | mk _ _ _ _ _ r _ _ => r

def GoTypeInfo.properties : GoTypeInfo → List (String × GoTypeInfo)
  | mk _ _ _ _ _ _ p _ => p

def GoTypeInfo.items : GoTypeInfo → Option GoTypeInfo
  | mk _ _ _ _ _ _ _ i => i

/-- Models the Go assignment `propInfo.Required = ...`. -/
def GoTypeInfo.setRequired : GoTypeInfo → Bool → GoTypeInfo
  | mk n j g t d _ p i, r => mk n j g t d r p i

/-! ## SchemaAnalyzer: fallible results and the type cache -/

/-- Result of a fallible Go call: a value, a returned `error`, or a
runtime panic from dereferencing a nil schema pointer. A panic
propagates unchanged (it is not wrapped by `%w`). -/
inductive GoRes (α : Type) where
  | ok (a : α)
  | err (msg : String)
  | panicNil

def GoRes.bind {α β : Type} : GoRes α → (α → GoRes β) → GoRes β
  | ok a, f => f a
  | err m, _ => err m
  | panicNil, _ => panicNil

/-- The analyzer's `typeCache map[string]*GoTypeInfo`, as an association
list with unique keys. -/
abbrev Cache : Type := List (String × GoTypeInfo)

def cacheKey (typeName fieldName : String) : String :=
  typeName ++ "_" ++ fieldName

def cacheLookup (cache : Cache) (key : String) : Option GoTypeInfo :=
  match cache with
  | [] => none
  | (k, v) :: rest => if k = key then some v else cacheLookup rest key

def cacheInsert (cache : Cache) (key : String) (v : GoTypeInfo) : Cache :=
  match cache with
  | [] => [(key, v)]
  | (k, w) :: rest => if k = key then (k, v) :: rest else (k, w) :: cacheInsert rest key v

/-! ## SchemaAnalyzer: getGoTypeFromSchema and AnalyzeSchema

Translated from `pkg/analyzer/schema.go`. The `fuel` argument only
bounds the recursion depth (the Go functions recurse without bound on
the schema tree); every concrete statement below fixes it above the
depth of the inputs involved, and universal statements quantify over it.

In the `case ""` branch, when `schema.Items` is non-nil the Go code
recurses into `schema.Items.Schema` without the nil check that the
`case "array"` branch performs; a nil `Items.Schema` there is a nil
pointer dereference, modelled as `GoRes.panicNil`. -/

def getGoTypeFromSchema (fuel : Nat) (oschema : Option JSONSchemaProps)
    (typeName : String) : GoRes String :=
  match fuel with
  | 0 => GoRes.err "recursion budget exhausted"
  | fuel + 1 =>
    match oschema with
    | none => GoRes.panicNil
    | some schema =>
      if schema.type = "string" then
        -- for enums the source also returns "string"
        GoRes.ok "string"
      else if schema.type = "integer" then
        GoRes.ok (if schema.format = "int64" then "int64" else "int32")
      else if schema.type = "number" then
        GoRes.ok (if schema.format = "double" then "float64" else "float32")
      else if schema.type = "boolean" then
        GoRes.ok "bool"
      else if schema.type = "array" then
        match schema.items with
        | some (some itemSchema) =>
          (getGoTypeFromSchema fuel (some itemSchema) (generateItemTypeName typeName)).bind
            (fun itemType => GoRes.ok ("[]" ++ itemType))
        | _ => GoRes.ok "[]interface\x7b\x7d"
      else if schema.type = "object" then
        if !schema.properties.isEmpty then GoRes.ok typeName
        else GoRes.ok "map[string]interface\x7b\x7d"
      else if schema.type = "" then
        if !schema.properties.isEmpty then GoRes.ok typeName
        else
          match schema.items with
          | some innerSchema =>
            (getGoTypeFromSchema fuel innerSchema (generateItemTypeName typeName)).bind
              (fun itemType => GoRes.ok ("[]" ++ itemType))
          | none => GoRes.ok "interface\x7b\x7d"
      else GoRes.ok "interface\x7b\x7d"

/-- `isRequired` from schema.go: it has no access to the parent's
required list and always returns false. -/
def isRequired (_schema : JSONSchemaProps) : Bool := false

def generateJSONTag (fieldName : String) (schema : JSONSchemaProps) : String :=
  if !isRequired schema then "json:" ++ goQuote (fieldName ++ ",omitempty")
  else "json:" ++ goQuote fieldName

mutual

/-- `AnalyzeSchema`. The cache threads through the recursion (the Go
analyzer's `typeCache` is shared state on the receiver). When a parent
overwrites a child's `Required` flag it mutates the very node that the
child's call just cached; `analyzeProps` mirrors that aliasing by
updating the cache entry under the child's key. -/
def analyzeSchema (fuel : Nat) (cache : Cache) (oschema : Option JSONSchemaProps)
    (typeName fieldName : String) : GoRes (GoTypeInfo × Cache) :=
  match fuel with
  | 0 => GoRes.err "recursion budget exhausted"
  | fuel + 1 =>
    match oschema with
    | none => GoRes.err "schema is nil"
    | some schema =>
      let key := cacheKey typeName fieldName
      match cacheLookup cache key with
      | some cached => GoRes.ok (cached, cache)
      | none =>
        match getGoTypeFromSchema fuel (some schema) typeName with
        | GoRes.panicNil => GoRes.panicNil
        | GoRes.err m =>
          GoRes.err ("failed to determine Go type for " ++ typeName ++ ": " ++ m)
        | GoRes.ok goType =>
          -- the Go code builds typeInfo here and then fills Properties and
          -- Items in place; the net node is assembled below
          match (if schema.type = "object" && !schema.properties.isEmpty then
                    analyzeProps fuel cache schema.properties typeName schema.required
                  else GoRes.ok ([], cache)) with
          | GoRes.panicNil => GoRes.panicNil
          | GoRes.err m => GoRes.err m
          | GoRes.ok (props, cache₁) =>
            match (if schema.type = "array" then
                      match schema.items with
                      | some (some itemSchema) =>
                        match analyzeSchema fuel cache₁ (some itemSchema)
                            (generateItemTypeName typeName) "" with
                        | GoRes.panicNil => GoRes.panicNil
                        | GoRes.err m =>
                          GoRes.err ("failed to analyze array items for " ++ typeName ++ ": " ++ m)
                        | GoRes.ok (itemInfo, cache₂) => GoRes.ok (some itemInfo, cache₂)
                      | _ => GoRes.ok (none, cache₁)
                    else GoRes.ok (none, cache₁)) with
            | GoRes.panicNil => GoRes.panicNil
            | GoRes.err m => GoRes.err m
            | GoRes.ok (itemsOpt, cache₂) =>
              let info := GoTypeInfo.mk typeName fieldName goType
                (generateJSONTag fieldName schema) schema.description false props itemsOpt
              GoRes.ok (info, cacheInsert cache₂ key info)

/-- The property loop of `AnalyzeSchema` (lines 73-82 of schema.go):
analyze each property in map-iteration order, then overwrite its
`Required` flag from the parent's required list. -/
def analyzeProps (fuel : Nat) (cache : Cache) (props : List (String × JSONSchemaProps))
    (typeName : String) (required : List String) :
    GoRes (List (String × GoTypeInfo) × Cache) :=
  match fuel with
  | 0 => GoRes.err "recursion budget exhausted"
  | fuel + 1 =>
    match props with
    | [] => GoRes.ok ([], cache)
    | (propName, propSchema) :: rest =>
      let propTypeName := generatePropertyTypeName typeName propName
      match analyzeSchema fuel cache (some propSchema) propTypeName propName with
      | GoRes.panicNil => GoRes.panicNil
      | GoRes.err m => GoRes.err ("failed to analyze property " ++ propName ++ ": " ++ m)
      | GoRes.ok (propInfo, cache₁) =>
        let propInfo₁ := propInfo.setRequired (required.contains propName)
        let cache₂ := cacheInsert cache₁ (cacheKey propTypeName propName) propInfo₁
        match analyzeProps fuel cache₂ rest typeName required with
        | GoRes.panicNil => GoRes.panicNil
        | GoRes.err m => GoRes.err m
        | GoRes.ok (restInfos, cache₃) => GoRes.ok ((propName, propInfo₁) :: restInfos, cache₃)

end

/-- The object block of `AnalyzeSchema` (the conditional around the
property loop), named for use in proofs. -/
def analyzeObjectPart (fuel : Nat) (cache : Cache) (schema : JSONSchemaProps)
    (typeName : String) : GoRes (List (String × GoTypeInfo) × Cache) :=
  if schema.type = "object" && !schema.properties.isEmpty then
    analyzeProps fuel cache schema.properties typeName schema.required
  else GoRes.ok ([], cache)

/-- The array block of `AnalyzeSchema`, named for use in proofs. -/
def analyzeArrayPart (fuel : Nat) (cache₁ : Cache) (schema : JSONSchemaProps)
    (typeName : String) : GoRes (Option GoTypeInfo × Cache) :=
  if schema.type = "array" then
    match schema.items with
    | some (some itemSchema) =>
      match analyzeSchema fuel cache₁ (some itemSchema) (generateItemTypeName typeName) "" with
      | GoRes.panicNil => GoRes.panicNil
      | GoRes.err m => GoRes.err ("failed to analyze array items for " ++ typeName ++ ": " ++ m)
      | GoRes.ok (itemInfo, cache₂) => GoRes.ok (some itemInfo, cache₂)
    | _ => GoRes.ok (none, cache₁)
  else GoRes.ok (none, cache₁)

/-- Lexicographic comparison of strings by code point, modelling Go's
byte-wise string order on ASCII data. -/
def charListLE : List Char → List Char → Bool
  | [], _ => true
  | _ :: _, [] => false
  | a :: as, b :: bs =>
    if a.toNat < b.toNat then true
    else if b.toNat < a.toNat then false
    else charListLE as bs

def strLE (a b : String) : Bool := charListLE a.toList b.toList

/-- Insertion into a list sorted by `name`. -/
def insertByName (x : GoTypeInfo) : List GoTypeInfo → List GoTypeInfo
  | [] => [x]
  | y :: ys => if strLE x.name y.name then x :: y :: ys else y :: insertByName x ys

/-- Insertion sort by `name`; on lists with pairwise-distinct names any
correct sort (such as Go's `sort.Slice` with `Name <`) yields this
order. -/
def sortByName : List GoTypeInfo → List GoTypeInfo
  | [] => []
  | x :: xs => insertByName x (sortByName xs)

/-- `GetStructFields`: collect the property nodes (in map-iteration
order) and sort them by Go field name. -/
def getStructFields (info : GoTypeInfo) : List GoTypeInfo :=
  sortByName (info.properties.map Prod.snd)

/-! ## Observation helpers for stating concrete results -/

/-- The required flag of a named property of an analysis result. -/
def propRequired (r : GoRes (GoTypeInfo × Cache)) (propName : String) : Option Bool :=
  match r with
  | GoRes.ok (info, _) => (info.properties.lookup propName).map GoTypeInfo.required
  | _ => none

/-- The Go type string of an analysis result. -/
def analyzedGoType (r : GoRes (GoTypeInfo × Cache)) : Option String :=
  match r with
  | GoRes.ok (info, _) => some info.goType
  | _ => none

/-- The cache produced by an analysis result. -/
def analyzedCache (r : GoRes (GoTypeInfo × Cache)) : Cache :=
  match r with
  | GoRes.ok (_, cache) => cache
  | _ => []

/-- The JSON tag `generateJSONTag` produces for every field, given that
`isRequired` always answers false. -/
def omitTagOf (jsonName : String) : String :=
  "json:" ++ goQuote (jsonName ++ ",omitempty")

/-- Every node of a `GoTypeInfo` tree carries an ",omitempty" JSON tag. -/
inductive TagsOmitempty : GoTypeInfo → Prop where
  | intro (info : GoTypeInfo)
      (htag : info.jsonTag = omitTagOf info.jsonName)
      (hprops : ∀ p ∈ info.properties, TagsOmitempty p.2)
      (hitems : ∀ it, info.items = some it → TagsOmitempty it) :
      TagsOmitempty info

/-- The concrete schemas used in the array/items claims: an array with no
items at all, an array whose `Items` is non-nil but whose `Items.Schema`
is nil, and an untyped schema whose `Items` is non-nil with a nil
`Items.Schema`. -/
def arraySchemaNoItems : JSONSchemaProps :=
  JSONSchemaProps.mk "array" "" "" [] [] [] none none none none none none ""

def arraySchemaNilItemSchema : JSONSchemaProps :=
  JSONSchemaProps.mk "array" "" "" [] [] [] (some none) none none none none none ""

def untypedSchemaNilItemSchema : JSONSchemaProps :=
  JSONSchemaProps.mk "" "" "" [] [] [] (some none) none none none none none ""

/-! ## CRDAnalyzer: validation, storage-version selection and metadata

Translated from `pkg/analyzer/crd.go`. `CRDVersion.schema` models the
two pointers `Schema *CustomResourceValidation` and its
`OpenAPIV3Schema *JSONSchemaProps` as nested options. -/

structure CRDNames where
  kind : String
  plural : String
  singular : String
  listKind : String
  shortNames : List String

structure CRDVersion where
  name : String
  storage : Bool
  schema : Option (Option JSONSchemaProps)

structure CRDSpec where
  group : String
  names : CRDNames
  versions : List CRDVersion

structure CustomResourceDefinition where
  name : String
  spec : CRDSpec

def versionHasSchema (v : CRDVersion) : Bool :=
  match v.schema with
  | some (some _) => true
  | _ => false

/-- `ValidateCRD`: error messages as in crd.go; `none` means valid. -/
def validateCRD : Option CustomResourceDefinition → Option String
  | none => some "CRD is nil"
  | some crd =>
    if crd.spec.group = "" then some "CRD group is required"
    else if crd.spec.names.kind = "" then some "CRD kind is required"
    else if crd.spec.names.plural = "" then some "CRD plural name is required"
    else if crd.spec.versions.isEmpty then some "CRD must have at least one version"
    else if !(crd.spec.versions.any versionHasSchema) then
      some "CRD must have at least one version with an OpenAPI v3 schema"
    else none

structure CRDInfo where
  name : String
  group : String
  kind : String
  version : String
  versions : List String
  plural : String
  singular : String
  shortNames : List String
  listKind : String
  schema : Option JSONSchemaProps
  openAPISchema : Option JSONSchemaProps

/-- One step of the storage-version loop in `AnalyzeCRD`:
`if version.Storage || storageVersion == nil`. -/
def selectStorageStep (acc : Option CRDVersion) (v : CRDVersion) : Option CRDVersion :=
  if v.storage || acc.isNone then some v else acc

def selectStorageVersion (versions : List CRDVersion) : Option CRDVersion :=
  versions.foldl selectStorageStep none

/-- `AnalyzeCRD`: validate, then extract metadata, the storage version
and its schema, and default `ListKind`. -/
def analyzeCRD (ocrd : Option CustomResourceDefinition) : Except String CRDInfo :=
  match validateCRD ocrd, ocrd with
  | some e, _ => Except.error ("CRD validation failed: " ++ e)
  | none, none =>
    -- unreachable: validateCRD none is always an error
    Except.error ("CRD validation failed: " ++ "CRD is nil")
  | none, some crd =>
    let storageVersion := selectStorageVersion crd.spec.versions
    Except.ok
      { name := crd.name
        group := crd.spec.group
        kind := crd.spec.names.kind
        version := match storageVersion with | some v => v.name | none => ""
        versions := crd.spec.versions.map CRDVersion.name
        plural := crd.spec.names.plural
        singular := crd.spec.names.singular
        shortNames := crd.spec.names.shortNames
        listKind :=
          if crd.spec.names.listKind = "" then crd.spec.names.kind ++ "List"
          else crd.spec.names.listKind
        schema := match storageVersion with
          | some v => (match v.schema with | some (some s) => some s | _ => none)
          | none => none
        openAPISchema := match storageVersion with
          | some v => (match v.schema with | some (some s) => some s | _ => none)
          | none => none }

/-- `GetAPIVersion` from crd.go. -/
def getAPIVersion (info : CRDInfo) : String :=
  if info.group = "" then info.version else info.group ++ "/" ++ info.version

/-- The spec's storage-version example: versions
[(v1alpha1, storage false), (v1, storage true)]. -/
def exampleStorageCRD (s1 s2 : JSONSchemaProps) : CustomResourceDefinition :=
  { name := "widgets.example.com"
    spec := { group := "example.com"
              names := { kind := "Widget", plural := "widgets", singular := ""
                         listKind := "", shortNames := [] }
              versions := [ { name := "v1alpha1", storage := false, schema := some (some s1) },
                            { name := "v1", storage := true, schema := some (some s2) } ] } }

/-- A CRD that is valid except for its empty group. -/
def emptyGroupCRD : CustomResourceDefinition :=
  { name := "tests"
    spec := { group := ""
              names := { kind := "Test", plural := "tests", singular := ""
                         listKind := "", shortNames := [] }
              versions := [ { name := "v1", storage := true
                              schema := some (some (simpleSchema "object")) } ] } }

def crdInfoVersion : Except String CRDInfo → Option String
  | Except.ok i => some i.version
  | _ => none

def crdInfoSchema : Except String CRDInfo → Option (Option JSONSchemaProps)
  | Except.ok i => some i.schema
  | _ => none

/-! ## Emitter: convertSchemaToGoCode

Translated from the schema-to-Go-code template helpers in
`pkg/generator` (src/unnamed/part_001, lines 587-697). Braces that are
literal text in the emitted Go source are written as their character
escapes. `appendSchemaStructure` iterates `schema.Properties` (a Go
map) in whatever order the runtime yields; the association list order
stands for that iteration order. -/

def tabs (n : Nat) : String := String.mk (List.replicate n '\t')

/-- Models `strings.ReplaceAll(desc, quote, backslash-quote)` applied to
descriptions before quoting. -/
def replaceQuotes (s : String) : String :=
  String.mk (s.toList.flatMap (fun c => if c = '"' then ['\\', '"'] else [c]))

def appendBasicSchemaFields (schema : JSONSchemaProps) (indentStr : String) : String :=
  (if schema.type ≠ "" then indentStr ++ "\tType:        " ++ goQuote schema.type ++ ",\n"
   else "")
  ++ (if schema.description ≠ "" then
        indentStr ++ "\tDescription: " ++ goQuote (replaceQuotes schema.description) ++ ",\n"
      else "")
  ++ (if !schema.enum.isEmpty then
        indentStr ++ "\tEnum:        []any\x7b" ++ String.intercalate ", " schema.enum
          ++ "\x7d,\n"
      else "")

def optNumLine (label : String) (v : Option Int) (indentStr : String) : String :=
  match v with
  | some m => indentStr ++ "\t" ++ label ++ toString m ++ ",\n"
  | none => ""

def appendSchemaValidation (schema : JSONSchemaProps) (indentStr : String) : String :=
  optNumLine "Minimum:     " schema.minimum indentStr
  ++ optNumLine "Maximum:     " schema.maximum indentStr
  ++ optNumLine "MinLength:   " schema.minLength indentStr
  ++ optNumLine "MaxLength:   " schema.maxLength indentStr
  ++ (if schema.pattern ≠ "" then
        indentStr ++ "\tPattern:     " ++ goQuote schema.pattern ++ ",\n"
      else "")

def convertSchemaToGoCode : Nat → Option JSONSchemaProps → Nat → String
  | 0, _, _ => ""
  | _ + 1, none, _ => ""
  | fuel + 1, some schema, indent =>
    let indentStr := tabs indent
    "&jsonschema.Schema\x7b\n"
    ++ appendBasicSchemaFields schema indentStr
    ++ appendSchemaValidation schema indentStr
    ++ (if !schema.properties.isEmpty then
          indentStr ++ "\tProperties: map[string]*jsonschema.Schema\x7b\n"
          ++ String.join (schema.properties.map (fun p =>
              indentStr ++ "\t\t" ++ goQuote p.1 ++ ": "
              ++ convertSchemaToGoCode fuel (some p.2) (indent + 2) ++ ",\n"))
          ++ indentStr ++ "\t\x7d,\n"
        else "")
    ++ (if !schema.required.isEmpty then
          indentStr ++ "\tRequired:    []string\x7b"
          ++ String.intercalate ", " (schema.required.map goQuote) ++ "\x7d,\n"
        else "")
    ++ (match schema.items with
        | some (some itemSchema) =>
          indentStr ++ "\tItems: &jsonschema.Schema"
          ++ convertSchemaToGoCode fuel (some itemSchema) (indent + 1) ++ ",\n"
        | _ => "")
    ++ (match schema.additionalProperties with
        | some (some apSchema) =>
          indentStr ++ "\tAdditionalProperties: &jsonschema.Schema"
          ++ convertSchemaToGoCode fuel (some apSchema) (indent + 1) ++ ",\n"
        | _ => "")
    ++ indentStr ++ "\x7d"

/-- `appendSchemaStructure` (properties, required, items, additional
properties), named for the claims; `convertSchemaToGoCode_succ_eq`
relates it to the inlined recursion above. -/
def appendSchemaStructure (fuel : Nat) (schema : JSONSchemaProps) (indentStr : String)
    (indent : Nat) : String :=
  (if !schema.properties.isEmpty then
      indentStr ++ "\tProperties: map[string]*jsonschema.Schema\x7b\n"
      ++ String.join (schema.properties.map (fun p =>
          indentStr ++ "\t\t" ++ goQuote p.1 ++ ": "
          ++ convertSchemaToGoCode fuel (some p.2) (indent + 2) ++ ",\n"))
      ++ indentStr ++ "\t\x7d,\n"
    else "")
  ++ (if !schema.required.isEmpty then
        indentStr ++ "\tRequired:    []string\x7b"
        ++ String.intercalate ", " (schema.required.map goQuote) ++ "\x7d,\n"
      else "")
  ++ (match schema.items with
      | some (some itemSchema) =>
        indentStr ++ "\tItems: &jsonschema.Schema"
        ++ convertSchemaToGoCode fuel (some itemSchema) (indent + 1) ++ ",\n"
      | _ => "")
  ++ (match schema.additionalProperties with
      | some (some apSchema) =>
        indentStr ++ "\tAdditionalProperties: &jsonschema.Schema"
        ++ convertSchemaToGoCode fuel (some apSchema) (indent + 1) ++ ",\n"
      | _ => "")

/-- The same two-property object under two iteration orders of its
(unordered) property map. -/
def schemaOrderA : JSONSchemaProps :=
  objectSchema [("alpha", simpleSchema "string"), ("beta", simpleSchema "integer")] []

def schemaOrderB : JSONSchemaProps :=
  objectSchema [("beta", simpleSchema "integer"), ("alpha", simpleSchema "string")] []

/-- Names of the sorted struct fields of an analysis result. -/
def structFieldNames (r : GoRes (GoTypeInfo × Cache)) : List String :=
  match r with
  | GoRes.ok (info, _) => (getStructFields info).map GoTypeInfo.name
  | _ => []

/-! ## Generator: file emission effects

Translated from `GenerateToolset` and `generateFile` in
`pkg/generator` (src/unnamed/part_001, lines 52-121). The file system
is abstracted as the predicate `fileExists`; the effects the generator
performs are recorded as a trace. `filepath.Join` is modelled as
joining with "/". Template rendering itself (text/template `Execute`)
is abstracted: the `writeTemplate` effect records that the named
template was rendered directly into the created file. -/

inductive FSEffect where
  | mkdirAll (dir : String)
  | statCheck (path : String)
  | createFile (path : String)
  | writeTemplate (path : String) (templateName : String)
  deriving DecidableEq, Repr

structure GeneratorConfig where
  outputDir : String
  templateDir : String
  packageName : String
  modulePath : String
  overwriteFiles : Bool
  includeComments : Bool

def generateFile (cfg : GeneratorConfig) (fileExists : String → Bool)
    (hasTemplate : String → Bool) (templateName filename : String) :
    Except String (List FSEffect) :=
  let outputPath := cfg.outputDir ++ "/" ++ filename
  if !cfg.overwriteFiles && fileExists outputPath then
    Except.error ("file " ++ outputPath ++ " already exists and overwrite is disabled")
  else if !hasTemplate templateName then
    Except.error ("template " ++ templateName ++ " not found")
  else
    Except.ok ((if !cfg.overwriteFiles then [FSEffect.statCheck outputPath] else [])
      ++ [FSEffect.createFile outputPath, FSEffect.writeTemplate outputPath templateName])

/-- The fixed template/filename list of `GenerateToolset`. -/
def toolsetFiles : List (String × String) :=
  [("toolset.go.tmpl", "toolset.go"), ("types.go.tmpl", "types.go"),
   ("client.go.tmpl", "client.go"), ("handlers.go.tmpl", "handlers.go"),
   ("schema.go.tmpl", "schema.go"), ("doc.go.tmpl", "doc.go")]

def generateToolsetStep (cfg : GeneratorConfig) (fileExists hasTemplate : String → Bool)
    (acc : Except String (List FSEffect)) (f : String × String) :
    Except String (List FSEffect) :=
  match acc with
  | Except.error m => Except.error m
  | Except.ok effs =>
    match generateFile cfg fileExists hasTemplate f.1 f.2 with
    | Except.error m => Except.error ("failed to generate " ++ f.2 ++ ": " ++ m)
    | Except.ok effs' => Except.ok (effs ++ effs')

def generateToolset (cfg : GeneratorConfig) (fileExists hasTemplate : String → Bool)
    (toolsetInfo : Option Unit) : Except String (List FSEffect) :=
  match toolsetInfo with
  | none => Except.error "toolset info is required"
  | some _ =>
    toolsetFiles.foldl (generateToolsetStep cfg fileExists hasTemplate)
      (Except.ok [FSEffect.mkdirAll cfg.outputDir])

/-! ## NameGenerator: case conversions

Translated from `toCamelCase`, `toPascalCase`, `splitCamelCase`,
`toSnakeCase` and `toKebabCase` in `pkg/generator`
(src/unnamed/part_001, lines 220-350), over rune lists. -/

theorem toNat_ofNat_valid (n : Nat) (h : n < 55296) : (Char.ofNat n).toNat = n := by
  unfold Char.ofNat
  split
  · rfl
  · exact absurd (Or.inl h : Nat.isValidChar n) (by assumption)

theorem char_eq_of_toNat_eq {c d : Char} (h : c.toNat = d.toNat) : c = d := by
  apply Char.ext
  exact UInt32.toNat.inj h

theorem char_toNat_valid (c : Char) :
    c.toNat < 55296 ∨ (57344 ≤ c.toNat ∧ c.toNat < 1114112) := by
  have h := c.valid
  unfold UInt32.isValidChar Nat.isValidChar at h
  exact h

theorem ofNat_toNat_char (c : Char) (h : c.toNat < 55296) : Char.ofNat c.toNat = c := by
  apply char_eq_of_toNat_eq
  exact toNat_ofNat_valid _ h

theorem contains_iff_mem {α : Type} [BEq α] [LawfulBEq α] {l : List α} {a : α} :
    l.contains a = true ↔ a ∈ l := by
  simp

theorem validateAux_eq_none_iff (seen : List Char) (l : List Char) :
    validateAux seen l = none ↔
      (∀ c ∈ l, validCRUDChar c = true) ∧ (∀ c ∈ l, c ∉ seen) ∧ l.Nodup := by
  induction l generalizing seen with
  | nil => simp [validateAux]
  | cons x xs ih =>
    unfold validateAux
    by_cases hv : validCRUDChar x = true
    · simp only [hv, Bool.not_true, Bool.false_eq_true, if_false]
      by_cases hs : seen.contains x
      · simp only [hs, if_true]
        constructor
        · intro h; exact absurd h (by simp)
        · rintro ⟨_, hns, _⟩
          exact absurd ((contains_iff_mem).mp hs) (hns x (by simp))
      · simp only [hs, Bool.false_eq_true, if_false, ih]
        have hxs : x ∉ seen := by
          intro hmem
          exact hs ((contains_iff_mem).mpr hmem)
        constructor
        · rintro ⟨h1, h2, h3⟩
          refine ⟨?_, ?_, ?_⟩
          · intro c hc
            rcases List.mem_cons.mp hc with rfl | hc
            · exact hv
            · exact h1 c hc
          · intro c hc
            rcases List.mem_cons.mp hc with rfl | hc
            · exact hxs
            · intro hcs
              exact h2 c hc (List.mem_cons_of_mem _ hcs)
          · refine List.nodup_cons.mpr ⟨?_, h3⟩
            intro hxin
            exact h2 x hxin (List.mem_cons_self _ _)
        · rintro ⟨h1, h2, h3⟩
          rcases List.nodup_cons.mp h3 with ⟨hnx, hnd⟩
          refine ⟨?_, ?_, hnd⟩
          · intro c hc
            exact h1 c (List.mem_cons_of_mem _ hc)
          · intro c hc hcs
            rcases List.mem_cons.mp hcs with rfl | hcseen
            · exact hnx hc
            · exact h2 c (List.mem_cons_of_mem _ hc) hcseen
    · simp only [Bool.not_eq_true] at hv
      simp only [hv, Bool.not_false, if_true]
      constructor
      · intro h; exact absurd h (by simp)
      · rintro ⟨h1, _, _⟩
        have := h1 x (by simp)
        rw [hv] at this
        exact absurd this (by simp)

theorem validateCRUDOperations_eq_none_iff (l : List Char) :
    validateCRUDOperations l = none ↔
      l ≠ [] ∧ (∀ c ∈ l, validCRUDChar c = true) ∧ l.Nodup := by
  unfold validateCRUDOperations
  by_cases h : l.isEmpty
  · simp only [h, if_true]
    have : l = [] := List.isEmpty_iff.mp h
    subst this
    simp
  · simp only [h, Bool.false_eq_true, if_false, validateAux_eq_none_iff]
    have hne : l ≠ [] := by
      intro heq; subst heq; simp at h
    simp [hne]

theorem validateAux_invalidChar (seen : List Char) (l : List Char) (c : Char)
    (h : validateAux seen l = some (CRUDError.invalidChar c)) :
    validCRUDChar c = false ∧ c ∈ l := by
  induction l generalizing seen with
  | nil => simp [validateAux] at h
  | cons x xs ih =>
    unfold validateAux at h
    by_cases hv : validCRUDChar x = true
    · simp only [hv, Bool.not_true, Bool.false_eq_true, if_false] at h
      by_cases hs : seen.contains x
      · simp only [hs, if_true, Option.some.injEq] at h
        cases h
      · simp only [hs, Bool.false_eq_true, if_false] at h
        rcases ih _ h with ⟨h1, h2⟩
        exact ⟨h1, List.mem_cons_of_mem _ h2⟩
    · simp only [Bool.not_eq_true] at hv
      simp only [hv, Bool.not_false, if_true, Option.some.injEq,
        CRUDError.invalidChar.injEq] at h
      subst h
      exact ⟨hv, List.mem_cons_self _ _⟩

theorem validateAux_dupChar (seen : List Char) (l : List Char) (c : Char)
    (h : validateAux seen l = some (CRUDError.dupChar c)) :
    validCRUDChar c = true ∧ c ∈ l ∧ (c ∈ seen ∨ 2 ≤ l.count c) := by
  induction l generalizing seen with
  | nil => simp [validateAux] at h
  | cons x xs ih =>
    unfold validateAux at h
    by_cases hv : validCRUDChar x = true
    · simp only [hv, Bool.not_true, Bool.false_eq_true, if_false] at h
      by_cases hs : seen.contains x
      · simp only [hs, if_true, Option.some.injEq, CRUDError.dupChar.injEq] at h
        subst h
        exact ⟨hv, List.mem_cons_self _ _, Or.inl (contains_iff_mem.mp hs)⟩
      · simp only [hs, Bool.false_eq_true, if_false] at h
        rcases ih _ h with ⟨h1, h2, h3⟩
        refine ⟨h1, List.mem_cons_of_mem _ h2, ?_⟩
        rcases h3 with hseen | hcount
        · rcases List.mem_cons.mp hseen with rfl | hseen
          · right
            have : 1 ≤ xs.count c := List.count_pos_iff.mpr h2
            rw [List.count_cons_self]
            omega
          · exact Or.inl hseen
        · right
          have : xs.count c ≤ (x :: xs).count c := List.count_le_count_cons _ _ _
          omega
    · simp only [Bool.not_eq_true] at hv
      simp only [hv, Bool.not_false, if_true, Option.some.injEq] at h
      cases h

theorem dedupAux_sublist (seen : List String) (l : List String) :
    (dedupAux seen l).Sublist l := by
  induction l generalizing seen with
  | nil => simp [dedupAux]
  | cons x xs ih =>
    unfold dedupAux
    by_cases hs : seen.contains x
    · simp only [hs, if_true]
      exact (ih seen).cons x
    · simp only [hs, Bool.false_eq_true, if_false]
      exact (ih (x :: seen)).cons₂ x

theorem mem_dedupAux (seen : List String) (l : List String) (x : String) :
    x ∈ dedupAux seen l ↔ x ∈ l ∧ x ∉ seen := by
  induction l generalizing seen with
  | nil => simp [dedupAux]
  | cons y ys ih =>
    unfold dedupAux
    by_cases hs : seen.contains y
    · simp only [hs, if_true, ih]
      have hy : y ∈ seen := contains_iff_mem.mp hs
      constructor
      · rintro ⟨h1, h2⟩
        exact ⟨List.mem_cons_of_mem _ h1, h2⟩
      · rintro ⟨h1, h2⟩
        rcases List.mem_cons.mp h1 with rfl | h1
        · exact absurd hy h2
        · exact ⟨h1, h2⟩
    · simp only [hs, Bool.false_eq_true, if_false, List.mem_cons, ih]
      have hy : y ∉ seen := fun hm => hs (contains_iff_mem.mpr hm)
      constructor
      · rintro (rfl | ⟨h1, h2⟩)
        · exact ⟨Or.inl rfl, hy⟩
        · refine ⟨Or.inr h1, fun hm => h2 (Or.inr hm)⟩
      · rintro ⟨(rfl | h1), h2⟩
        · exact Or.inl rfl
        · by_cases hxy : x = y
          · exact Or.inl hxy
          · refine Or.inr ⟨h1, fun hm => ?_⟩
            rcases hm with h | h
            · exact hxy h
            · exact h2 h

theorem dedupAux_nodup (seen : List String) (l : List String) :
    (dedupAux seen l).Nodup := by
  induction l generalizing seen with
  | nil => simp [dedupAux]
  | cons x xs ih =>
    unfold dedupAux
    by_cases hs : seen.contains x
    · simp only [hs, if_true]
      exact ih seen
    · simp only [hs, Bool.false_eq_true, if_false]
      refine List.nodup_cons.mpr ⟨?_, ih (x :: seen)⟩
      intro hmem
      exact ((mem_dedupAux _ _ _).mp hmem).2 (List.mem_cons_self _ _)

/-- Claim C2: operation-token expansion. Expanding "cr" yields exactly
[create, get, list]; validation succeeds exactly on nonempty strings of
distinct characters drawn from c,r,u,d (so an invalid character, a
duplicated character, or the empty string each yield an error); the
reported error names an actually offending character (an invalid one that
occurs in the input, or a valid one occurring at least twice); a single
'r' is valid even though it expands to two operations; an unset selection
yields all five operations; and expansion flattens each character's
expansion in input order, then deduplicates keeping first-seen order
(`dedupFirstSeen` yields a duplicate-free sublist of the flattened
expansion with the same elements). -/
theorem crud_token_expansion_spec :
    (validateCRUDOperations ['c', 'r'] = none
      ∧ parseCRUDOperations ['c', 'r'] = ["create", "get", "list"])
    ∧ (∀ l : List Char, validateCRUDOperations l = none ↔
        l ≠ [] ∧ (∀ c ∈ l, validCRUDChar c = true) ∧ l.Nodup)
    ∧ (∀ (l : List Char) (c : Char),
        validateCRUDOperations l = some (CRUDError.invalidChar c) →
          validCRUDChar c = false ∧ c ∈ l)
    ∧ (∀ (l : List Char) (c : Char),
        validateCRUDOperations l = some (CRUDError.dupChar c) →
          validCRUDChar c = true ∧ 2 ≤ l.count c)
    ∧ validateCRUDOperations ['c', 'c', 'd'] = some (CRUDError.dupChar 'c')
    ∧ validateCRUDOperations ['x', 'y', 'z'] = some (CRUDError.invalidChar 'x')
    ∧ validateCRUDOperations [] = some CRUDError.empty
    ∧ (validateCRUDOperations ['r'] = none
        ∧ parseCRUDOperations ['r'] = ["get", "list"])
    ∧ getResourceOperations [] = ["create", "get", "list", "update", "delete"]
    ∧ (∀ l : List Char,
        parseCRUDOperations l = dedupFirstSeen (l.flatMap expandCRUDChar))
    ∧ (∀ ops : List String, (dedupFirstSeen ops).Sublist ops
        ∧ (dedupFirstSeen ops).Nodup
        ∧ ∀ x, x ∈ dedupFirstSeen ops ↔ x ∈ ops) := by
  refine ⟨⟨by decide, by decide⟩, ?_, ?_, ?_, by decide, by decide, by decide,
    ⟨by decide, by decide⟩, by decide, fun _ => rfl, ?_⟩
  · exact validateCRUDOperations_eq_none_iff
  · intro l c h
    unfold validateCRUDOperations at h
    by_cases he : l.isEmpty
    · simp [he] at h
    · simp only [he, Bool.false_eq_true, if_false] at h
      exact validateAux_invalidChar [] l c h
  · intro l c h
    unfold validateCRUDOperations at h
    by_cases he : l.isEmpty
    · simp [he] at h
    · simp only [he, Bool.false_eq_true, if_false] at h
      rcases validateAux_dupChar [] l c h with ⟨h1, _, h3⟩
      rcases h3 with h3 | h3
      · exact absurd h3 (by simp)
      · exact ⟨h1, h3⟩
  · intro ops
    exact ⟨dedupAux_sublist [] ops, dedupAux_nodup [] ops, fun x => by
      rw [dedupFirstSeen, mem_dedupAux]
      simp⟩

/-- Witness for C2: the universally quantified components instantiated at
concrete inputs. -/
theorem crud_token_expansion_spec_witness :
    validateCRUDOperations ['c', 'r', 'x'] ≠ none
    ∧ (dedupFirstSeen ["get", "list", "get"]).Nodup := by
  have h := crud_token_expansion_spec
  constructor
  · intro hc
    have := (h.2.1 ['c', 'r', 'x']).mp hc
    have hx := this.2.1 'x' (by simp)
    exact absurd hx (by decide)
  · exact (h.2.2.2.2.2.2.2.2.2.2 ["get", "list", "get"]).2.1

theorem setRequired_required (i : GoTypeInfo) (b : Bool) : (i.setRequired b).required = b := by
  cases i; rfl

theorem setRequired_jsonTag (i : GoTypeInfo) (b : Bool) : (i.setRequired b).jsonTag = i.jsonTag := by
  cases i; rfl

theorem setRequired_jsonName (i : GoTypeInfo) (b : Bool) :
    (i.setRequired b).jsonName = i.jsonName := by
  cases i; rfl

theorem setRequired_properties (i : GoTypeInfo) (b : Bool) :
    (i.setRequired b).properties = i.properties := by
  cases i; rfl

theorem setRequired_items (i : GoTypeInfo) (b : Bool) : (i.setRequired b).items = i.items := by
  cases i; rfl

theorem tagsOmitempty_setRequired {i : GoTypeInfo} (b : Bool) (h : TagsOmitempty i) :
    TagsOmitempty (i.setRequired b) := by
  rcases h with ⟨_, htag, hprops, hitems⟩
  refine TagsOmitempty.intro _ ?_ ?_ ?_
  · rw [setRequired_jsonTag, setRequired_jsonName]; exact htag
  · rw [setRequired_properties]; exact hprops
  · rw [setRequired_items]; exact hitems

theorem pair_perm_cases {α : Type} {l : List α} {a b : α} (hab : a ≠ b) (h : l.Perm [a, b]) :
    l = [a, b] ∨ l = [b, a] := by
  have hlen : l.length = 2 := by simpa using h.length_eq
  match l, hlen with
  | [x, y], _ =>
    have hx : x ∈ [a, b] := h.subset (by simp)
    have hy : y ∈ [a, b] := h.subset (by simp)
    have ha : a ∈ [x, y] := h.symm.subset (by simp)
    have hb : b ∈ [x, y] := h.symm.subset (by simp)
    simp only [List.mem_cons, List.mem_singleton, List.not_mem_nil, or_false] at hx hy ha hb
    rcases hx with rfl | rfl
    · rcases hy with rfl | rfl
      · rcases hb with hb | hb <;> exact absurd hb.symm hab
      · exact Or.inl rfl
    · rcases hy with rfl | rfl
      · exact Or.inr rfl
      · rcases ha with ha | ha <;> exact absurd ha hab

theorem analyzeProps_required (fuel : Nat) :
    ∀ (cache : Cache) (props : List (String × JSONSchemaProps)) (typeName : String)
      (required : List String) (out : List (String × GoTypeInfo) × Cache),
      analyzeProps fuel cache props typeName required = GoRes.ok out →
        ∀ p ∈ out.1, p.2.required = required.contains p.1 := by
  induction fuel with
  | zero =>
    intro cache props tn req out h
    simp [analyzeProps] at h
  | succ n ih =>
    intro cache props tn req out h
    match props with
    | [] =>
      rw [analyzeProps] at h
      cases h
      intro p hp
      exact absurd hp (List.not_mem_nil _)
    | (propName, propSchema) :: rest =>
      rw [analyzeProps] at h
      cases hres : analyzeSchema n cache (some propSchema)
          (generatePropertyTypeName tn propName) propName with
      | panicNil => rw [hres] at h; cases h
      | err m => rw [hres] at h; cases h
      | ok pr =>
        rw [hres] at h
        obtain ⟨propInfo, cache₁⟩ := pr
        simp only at h
        cases hrest : analyzeProps n
            (cacheInsert cache₁ (cacheKey (generatePropertyTypeName tn propName) propName)
              (propInfo.setRequired (req.contains propName)))
            rest tn req with
        | panicNil => rw [hrest] at h; cases h
        | err m => rw [hrest] at h; cases h
        | ok out' =>
          rw [hrest] at h
          obtain ⟨restInfos, cache₃⟩ := out'
          simp only at h
          cases h
          intro p hp
          rcases List.mem_cons.mp hp with rfl | hp
          · exact setRequired_required _ _
          · exact ih _ _ _ _ _ hrest p hp

/-- Claim C4: for an object schema with properties name: string and
replicas: integer and required list [name], analysis produces a child
node for name with required true and for replicas with required false,
in either iteration order of the property map; and in general every
child's required flag equals membership of its property name in the
parent's required list at the point where the parent enumerates its
children, regardless of the child's own analysis. -/
theorem required_flag_threading :
    (∀ l : List (String × JSONSchemaProps),
      l.Perm [("name", simpleSchema "string"), ("replicas", simpleSchema "integer")] →
        propRequired (analyzeSchema 10 [] (some (objectSchema l ["name"])) "Widget" "") "name"
            = some true
        ∧ propRequired (analyzeSchema 10 [] (some (objectSchema l ["name"])) "Widget" "")
            "replicas" = some false)
    ∧ (∀ (fuel : Nat) (cache : Cache) (props : List (String × JSONSchemaProps))
        (typeName : String) (required : List String) (out : List (String × GoTypeInfo) × Cache),
        analyzeProps fuel cache props typeName required = GoRes.ok out →
          ∀ p ∈ out.1, p.2.required = required.contains p.1) := by
  constructor
  · intro l hperm
    have hab : (("name", simpleSchema "string") : String × JSONSchemaProps)
        ≠ ("replicas", simpleSchema "integer") := by
      intro hc
      injection hc with h1 _
      exact absurd h1 (by decide)
    rcases pair_perm_cases hab hperm with rfl | rfl
    · exact ⟨by decide, by decide⟩
    · exact ⟨by decide, by decide⟩
  · exact analyzeProps_required

/-- Witness for C4: the concrete schema in its given order. -/
theorem required_flag_threading_witness :
    propRequired (analyzeSchema 10 [] (some (objectSchema
        [("name", simpleSchema "string"), ("replicas", simpleSchema "integer")] ["name"]))
      "Widget" "") "name" = some true :=
  (required_flag_threading.1 _ (List.Perm.refl _)).1

/-- Counterexample to claim C5: two structurally distinct schema paths
that produce the same canonical cache key (the key format typeName_ fieldName
makes ("A_B", "c") and ("A", "B_c") collide) do NOT fail with a fatal
naming-collision error; the second analysis silently returns the node
cached by the first (a string schema's node, even though the second
schema is an integer schema), and no error value exists for this case. -/
theorem naming_collision_counterexample :
    analyzedGoType (analyzeSchema 10
        (analyzedCache (analyzeSchema 10 [] (some (simpleSchema "string")) "A_B" "c"))
        (some (simpleSchema "integer")) "A" "B_c") = some "string"
    ∧ getGoTypeFromSchema 10 (some (simpleSchema "integer")) "A" = GoRes.ok "int32" := by
  exact ⟨rfl, rfl⟩

/-- Claim C5 amended: the analyzer never raises a naming-collision
error. Distinct (typeName, fieldName) paths can produce the same cache
key, and whenever the cache already holds an entry for the key of the
current path, analysis silently returns that cached node unchanged and
succeeds. -/
theorem naming_collision_amended :
    (cacheKey "A_B" "c" = cacheKey "A" "B_c")
    ∧ (∀ (fuel : Nat) (cache : Cache) (schema : JSONSchemaProps) (typeName fieldName : String)
        (info : GoTypeInfo),
        cacheLookup cache (cacheKey typeName fieldName) = some info →
          analyzeSchema (fuel + 1) cache (some schema) typeName fieldName
            = GoRes.ok (info, cache)) := by
  constructor
  · rfl
  · intro fuel cache schema typeName fieldName info h
    rw [analyzeSchema]
    simp only [h]

/-- Witness for C5's amended statement: a concrete cache hit. -/
theorem naming_collision_amended_witness :
    analyzeSchema 5 [("T_f", GoTypeInfo.mk "X" "" "string" "" "" false [] none)]
      (some (simpleSchema "integer")) "T" "f"
      = GoRes.ok (GoTypeInfo.mk "X" "" "string" "" "" false [] none,
          [("T_f", GoTypeInfo.mk "X" "" "string" "" "" false [] none)]) :=
  naming_collision_amended.2 4 _ _ "T" "f" _ rfl

/-- Claim C7: an array schema without an item schema degrades to
[]interface\x7b\x7d and analysis returns normally when the node declares
type "array" (with Items nil, or Items non-nil and Items.Schema nil);
but when the type is undeclared and an items indicator is present with a
nil item schema, getGoTypeFromSchema dereferences the nil item schema --
the modelled nil-pointer panic -- instead of degrading, contradicting
the claim for that case. -/
theorem itemless_array_behavior :
    getGoTypeFromSchema 10 (some arraySchemaNoItems) "Widgets" = GoRes.ok "[]interface\x7b\x7d"
    ∧ getGoTypeFromSchema 10 (some arraySchemaNilItemSchema) "Widgets"
        = GoRes.ok "[]interface\x7b\x7d"
    ∧ analyzedGoType (analyzeSchema 10 [] (some arraySchemaNoItems) "Widgets" "")
        = some "[]interface\x7b\x7d"
    ∧ analyzedGoType (analyzeSchema 10 [] (some arraySchemaNilItemSchema) "Widgets" "")
        = some "[]interface\x7b\x7d"
    ∧ getGoTypeFromSchema 10 (some untypedSchemaNilItemSchema) "Widgets" = GoRes.panicNil
    ∧ analyzeSchema 10 [] (some untypedSchemaNilItemSchema) "Widgets" "" = GoRes.panicNil :=
  ⟨rfl, rfl, rfl, rfl, rfl, rfl⟩

theorem cacheLookup_inv {cache : Cache} (hinv : ∀ kv ∈ cache, TagsOmitempty kv.2)
    {key : String} {info : GoTypeInfo} (h : cacheLookup cache key = some info) :
    TagsOmitempty info := by
  induction cache with
  | nil => simp [cacheLookup] at h
  | cons kv rest ih =>
    rw [cacheLookup] at h
    by_cases hk : kv.1 = key
    · rw [if_pos hk] at h
      cases h
      exact hinv kv (List.mem_cons_self _ _)
    · rw [if_neg hk] at h
      exact ih (fun kv' hkv' => hinv kv' (List.mem_cons_of_mem _ hkv')) h

theorem cacheInsert_inv {cache : Cache} (hinv : ∀ kv ∈ cache, TagsOmitempty kv.2)
    {key : String} {info : GoTypeInfo} (hi : TagsOmitempty info) :
    ∀ kv ∈ cacheInsert cache key info, TagsOmitempty kv.2 := by
  induction cache with
  | nil =>
    intro kv hkv
    rw [cacheInsert] at hkv
    rcases List.mem_singleton.mp hkv with rfl
    exact hi
  | cons hd rest ih =>
    intro kv hkv
    rw [cacheInsert] at hkv
    by_cases hk : hd.1 = key
    · obtain ⟨k, v⟩ := hd
      simp only at hk
      rw [if_pos hk] at hkv
      rcases List.mem_cons.mp hkv with rfl | hkv
      · exact hi
      · exact hinv _ (List.mem_cons_of_mem _ hkv)
    · obtain ⟨k, v⟩ := hd
      simp only at hk
      rw [if_neg hk] at hkv
      rcases List.mem_cons.mp hkv with rfl | hkv
      · exact hinv _ (List.mem_cons_self _ _)
      · exact ih (fun kv' hkv' => hinv kv' (List.mem_cons_of_mem _ hkv')) _ hkv

theorem analyzeSchema_succ_eq (fuel : Nat) (cache : Cache) (schema : JSONSchemaProps)
    (tn fn : String) :
    analyzeSchema (fuel + 1) cache (some schema) tn fn =
      match cacheLookup cache (cacheKey tn fn) with
      | some cached => GoRes.ok (cached, cache)
      | none =>
        match getGoTypeFromSchema fuel (some schema) tn with
        | GoRes.panicNil => GoRes.panicNil
        | GoRes.err m => GoRes.err ("failed to determine Go type for " ++ tn ++ ": " ++ m)
        | GoRes.ok goType =>
          match analyzeObjectPart fuel cache schema tn with
          | GoRes.panicNil => GoRes.panicNil
          | GoRes.err m => GoRes.err m
          | GoRes.ok (props, cache₁) =>
            match analyzeArrayPart fuel cache₁ schema tn with
            | GoRes.panicNil => GoRes.panicNil
            | GoRes.err m => GoRes.err m
            | GoRes.ok (itemsOpt, cache₂) =>
              GoRes.ok (GoTypeInfo.mk tn fn goType (generateJSONTag fn schema)
                  schema.description false props itemsOpt,
                cacheInsert cache₂ (cacheKey tn fn)
                  (GoTypeInfo.mk tn fn goType (generateJSONTag fn schema)
                    schema.description false props itemsOpt)) := rfl

theorem analyze_tagsOmitempty (fuel : Nat) :
    (∀ (cache : Cache) (oschema : Option JSONSchemaProps) (tn fn : String)
      (info : GoTypeInfo) (cache' : Cache),
      (∀ kv ∈ cache, TagsOmitempty kv.2) →
      analyzeSchema fuel cache oschema tn fn = GoRes.ok (info, cache') →
        TagsOmitempty info ∧ ∀ kv ∈ cache', TagsOmitempty kv.2)
    ∧ (∀ (cache : Cache) (props : List (String × JSONSchemaProps)) (tn : String)
      (req : List String) (out : List (String × GoTypeInfo) × Cache),
      (∀ kv ∈ cache, TagsOmitempty kv.2) →
      analyzeProps fuel cache props tn req = GoRes.ok out →
        (∀ p ∈ out.1, TagsOmitempty p.2) ∧ ∀ kv ∈ out.2, TagsOmitempty kv.2) := by
  induction fuel with
  | zero =>
    constructor
    · intro cache oschema tn fn info cache' _ h
      simp [analyzeSchema] at h
    · intro cache props tn req out _ h
      simp [analyzeProps] at h
  | succ n ih =>
    constructor
    · intro cache oschema tn fn info cache' hinv h
      cases oschema with
      | none =>
        rw [analyzeSchema.eq_def] at h
        cases h
      | some schema =>
        rw [analyzeSchema_succ_eq] at h
        cases hc : cacheLookup cache (cacheKey tn fn) with
        | some cached =>
          rw [hc] at h
          cases h
          exact ⟨cacheLookup_inv hinv hc, hinv⟩
        | none =>
          rw [hc] at h
          simp only at h
          cases hg : getGoTypeFromSchema n (some schema) tn with
          | panicNil => rw [hg] at h; cases h
          | err m => rw [hg] at h; cases h
          | ok goType =>
            rw [hg] at h
            simp only at h
            cases hp : analyzeObjectPart n cache schema tn with
            | panicNil => rw [hp] at h; cases h
            | err m => rw [hp] at h; cases h
            | ok pc =>
              rw [hp] at h
              obtain ⟨props, cache₁⟩ := pc
              simp only at h
              have hpropsInv : (∀ p ∈ props, TagsOmitempty p.2)
                  ∧ ∀ kv ∈ cache₁, TagsOmitempty kv.2 := by
                rw [analyzeObjectPart] at hp
                by_cases hcond : (schema.type = "object" && !schema.properties.isEmpty) = true
                · rw [if_pos hcond] at hp
                  exact ih.2 cache schema.properties tn schema.required _ hinv hp
                · rw [if_neg hcond] at hp
                  cases hp
                  exact ⟨fun p hp => absurd hp (List.not_mem_nil _), hinv⟩
              cases hq : analyzeArrayPart n cache₁ schema tn with
              | panicNil => rw [hq] at h; cases h
              | err m => rw [hq] at h; cases h
              | ok oc =>
                rw [hq] at h
                obtain ⟨itemsOpt, cache₂⟩ := oc
                simp only at h
                have hitemsInv : (∀ it, itemsOpt = some it → TagsOmitempty it)
                    ∧ ∀ kv ∈ cache₂, TagsOmitempty kv.2 := by
                  rw [analyzeArrayPart] at hq
                  by_cases hcond : (schema.type = "array")
                  · rw [if_pos hcond] at hq
                    cases hit : schema.items with
                    | none =>
                      rw [hit] at hq
                      cases hq
                      exact ⟨fun it hi => Option.noConfusion hi, hpropsInv.2⟩
                    | some inner =>
                      cases inner with
                      | none =>
                        rw [hit] at hq
                        cases hq
                        exact ⟨fun it hi => Option.noConfusion hi, hpropsInv.2⟩
                      | some itemSchema =>
                        rw [hit] at hq
                        simp only at hq
                        cases hr : analyzeSchema n cache₁ (some itemSchema)
                            (generateItemTypeName tn) "" with
                        | panicNil => rw [hr] at hq; cases hq
                        | err m => rw [hr] at hq; cases hq
                        | ok ic =>
                          rw [hr] at hq
                          obtain ⟨itemInfo, cacheI⟩ := ic
                          have hrec := ih.1 cache₁ (some itemSchema) (generateItemTypeName tn) ""
                            itemInfo cacheI hpropsInv.2 hr
                          cases hq
                          exact ⟨fun it hi => Option.some.inj hi ▸ hrec.1, hrec.2⟩
                  · rw [if_neg hcond] at hq
                    cases hq
                    exact ⟨fun it hi => Option.noConfusion hi, hpropsInv.2⟩
                cases h
                constructor
                · exact TagsOmitempty.intro _ rfl hpropsInv.1 hitemsInv.1
                · exact cacheInsert_inv hitemsInv.2
                    (TagsOmitempty.intro _ rfl hpropsInv.1 hitemsInv.1)
    · intro cache props tn req out hinv h
      match props with
      | [] =>
        rw [analyzeProps.eq_def] at h
        cases h
        exact ⟨fun p hp => absurd hp (List.not_mem_nil _), hinv⟩
      | (propName, propSchema) :: rest =>
        rw [analyzeProps.eq_def] at h
        simp only at h
        cases hres : analyzeSchema n cache (some propSchema)
            (generatePropertyTypeName tn propName) propName with
        | panicNil => rw [hres] at h; cases h
        | err m => rw [hres] at h; cases h
        | ok pr =>
          rw [hres] at h
          obtain ⟨propInfo, cache₁⟩ := pr
          simp only at h
          have hhead := ih.1 cache (some propSchema) (generatePropertyTypeName tn propName)
            propName propInfo cache₁ hinv hres
          have hset : TagsOmitempty (propInfo.setRequired (req.contains propName)) :=
            tagsOmitempty_setRequired _ hhead.1
          have hc₂ : ∀ kv ∈ cacheInsert cache₁
              (cacheKey (generatePropertyTypeName tn propName) propName)
              (propInfo.setRequired (req.contains propName)), TagsOmitempty kv.2 :=
            cacheInsert_inv hhead.2 hset
          cases hrest : analyzeProps n
              (cacheInsert cache₁ (cacheKey (generatePropertyTypeName tn propName) propName)
                (propInfo.setRequired (req.contains propName)))
              rest tn req with
          | panicNil => rw [hrest] at h; cases h
          | err m => rw [hrest] at h; cases h
          | ok out' =>
            rw [hrest] at h
            obtain ⟨restInfos, cache₃⟩ := out'
            simp only at h
            cases h
            have htail := ih.2 _ rest tn req _ hc₂ hrest
            constructor
            · intro p hp
              rcases List.mem_cons.mp hp with rfl | hp
              · exact hset
              · exact htail.1 p hp
            · exact htail.2

/-- Claim C10: the generated JSON struct tag always contains ",omitempty",
including for fields named in their parent's required list: isRequired
always answers false, generateJSONTag therefore always emits the
omitempty form, and every node of every successfully analyzed type tree
carries such a tag (the parent overwrites only the Required flag, never
the tag, after the child's analysis computed it). -/
theorem json_tag_always_omitempty :
    (∀ schema : JSONSchemaProps, isRequired schema = false)
    ∧ (∀ (fieldName : String) (schema : JSONSchemaProps),
        generateJSONTag fieldName schema = omitTagOf fieldName)
    ∧ (∀ (fuel : Nat) (oschema : Option JSONSchemaProps) (tn fn : String)
        (info : GoTypeInfo) (cache' : Cache),
        analyzeSchema fuel [] oschema tn fn = GoRes.ok (info, cache') →
          TagsOmitempty info) := by
  refine ⟨fun _ => rfl, fun _ _ => rfl, ?_⟩
  intro fuel oschema tn fn info cache' h
  exact ((analyze_tagsOmitempty fuel).1 [] oschema tn fn info cache'
    (fun kv hkv => absurd hkv (List.not_mem_nil _)) h).1

/-- Witness for C10: a concrete analysis, with its root node's tag and
its required child's tag both containing ",omitempty". -/
theorem json_tag_always_omitempty_witness :
    ∃ info cache', analyzeSchema 10 [] (some (objectSchema
        [("name", simpleSchema "string"), ("replicas", simpleSchema "integer")] ["name"]))
      "Widget" "" = GoRes.ok (info, cache') ∧ TagsOmitempty info := by
  refine ⟨_, _, rfl, ?_⟩
  exact json_tag_always_omitempty.2.2 10 (some (objectSchema
    [("name", simpleSchema "string"), ("replicas", simpleSchema "integer")] ["name"]))
    "Widget" "" _ _ rfl

theorem foldl_selectStep_no_flagged (xs : List CRDVersion)
    (hflag : ∀ v ∈ xs, v.storage = false) (a : CRDVersion) :
    xs.foldl selectStorageStep (some a) = some a := by
  induction xs generalizing a with
  | nil => rfl
  | cons x rest ih =>
    have hx : x.storage = false := hflag x (List.mem_cons_self _ _)
    rw [List.foldl_cons]
    have hstep : selectStorageStep (some a) x = some a := by
      simp [selectStorageStep, hx]
    rw [hstep]
    exact ih (fun v hv => hflag v (List.mem_cons_of_mem _ hv)) a

theorem foldl_selectStep_single_flagged (vs : List CRDVersion) (v : CRDVersion)
    (hfil : vs.filter (fun w => w.storage) = [v]) (acc : Option CRDVersion) :
    vs.foldl selectStorageStep acc = some v := by
  induction vs generalizing acc with
  | nil => simp at hfil
  | cons x rest ih =>
    by_cases hx : x.storage = true
    · rw [List.filter_cons_of_pos hx] at hfil
      injection hfil with h1 h2
      subst h1
      rw [List.foldl_cons]
      have hstep : selectStorageStep acc x = some x := by
        simp [selectStorageStep, hx]
      rw [hstep]
      apply foldl_selectStep_no_flagged
      intro w hw
      by_contra hcon
      rw [Bool.not_eq_false] at hcon
      have : w ∈ rest.filter (fun w => w.storage) := List.mem_filter.mpr ⟨hw, hcon⟩
      rw [h2] at this
      exact absurd this (List.not_mem_nil _)
    · rw [Bool.not_eq_true] at hx
      rw [List.filter_cons_of_neg (by simp [hx])] at hfil
      rw [List.foldl_cons]
      exact ih hfil _

/-- Claim C3: storage-version selection. When exactly one version is
flagged storage, that version is selected; when none is flagged the
first version is selected; a successfully analyzed CRD's version and
schema are those of the selected storage version; and on the spec's
example [(v1alpha1, false), (v1, true)] the selected version is v1 with
its schema, even though it is not first. -/
theorem storage_version_selection :
    (∀ (vs : List CRDVersion) (v : CRDVersion),
        vs.filter (fun w => w.storage) = [v] → selectStorageVersion vs = some v)
    ∧ (∀ (x : CRDVersion) (xs : List CRDVersion),
        (∀ v ∈ x :: xs, v.storage = false) → selectStorageVersion (x :: xs) = some x)
    ∧ (∀ (crd : CustomResourceDefinition) (info : CRDInfo),
        analyzeCRD (some crd) = Except.ok info →
          ∀ (v : CRDVersion) (s : JSONSchemaProps),
            selectStorageVersion crd.spec.versions = some v → v.schema = some (some s) →
              info.version = v.name ∧ info.schema = some s)
    ∧ (∀ s1 s2 : JSONSchemaProps,
        crdInfoVersion (analyzeCRD (some (exampleStorageCRD s1 s2))) = some "v1"
        ∧ crdInfoSchema (analyzeCRD (some (exampleStorageCRD s1 s2))) = some (some s2)) := by
  refine ⟨?_, ?_, ?_, ?_⟩
  · intro vs v hfil
    exact foldl_selectStep_single_flagged vs v hfil none
  · intro x xs hflag
    rw [selectStorageVersion, List.foldl_cons]
    have hx : x.storage = false := hflag x (List.mem_cons_self _ _)
    have hstep : selectStorageStep none x = some x := by
      simp [selectStorageStep]
    rw [hstep]
    exact foldl_selectStep_no_flagged xs (fun v hv => hflag v (List.mem_cons_of_mem _ hv)) x
  · intro crd info h v s hsel hschema
    rw [analyzeCRD.eq_def] at h
    cases hval : validateCRD (some crd) with
    | some e => rw [hval] at h; cases h
    | none =>
      rw [hval] at h
      simp only at h
      cases h
      constructor
      · simp only [hsel]
      · simp only [hsel, hschema]
  · intro s1 s2
    exact ⟨rfl, rfl⟩

/-- Witness for C3: the single-flagged selection rule at a concrete
version list. -/
theorem storage_version_selection_witness :
    selectStorageVersion
        [{ name := "v1alpha1", storage := false, schema := some (some (simpleSchema "string")) },
         { name := "v1", storage := true, schema := some (some (simpleSchema "object")) }]
      = some { name := "v1", storage := true, schema := some (some (simpleSchema "object")) } :=
  storage_version_selection.1 _ _ rfl

/-- Counterexample to claim C6: a CRD that is valid in every respect
except its empty group is rejected by ValidateCRD with "CRD group is
required" (the claim says an empty group is accepted as a cluster-less
group). -/
theorem empty_group_rejected :
    validateCRD (some emptyGroupCRD) = some "CRD group is required"
    ∧ analyzeCRD (some emptyGroupCRD)
        = Except.error "CRD validation failed: CRD group is required" :=
  ⟨rfl, rfl⟩

/-- Claim C6 amended: an empty group is NOT accepted: ValidateCRD
rejects it just like an empty kind, an empty plural and an empty
version list, each with its own error, and AnalyzeCRD reports any
validation error before any analysis work; only GetAPIVersion treats an
empty group as a cluster-less group by returning the bare version. -/
theorem resource_identity_validation :
    (∀ crd : CustomResourceDefinition, crd.spec.group = "" →
        validateCRD (some crd) = some "CRD group is required")
    ∧ (∀ crd : CustomResourceDefinition, crd.spec.group ≠ "" → crd.spec.names.kind = "" →
        validateCRD (some crd) = some "CRD kind is required")
    ∧ (∀ crd : CustomResourceDefinition, crd.spec.group ≠ "" → crd.spec.names.kind ≠ "" →
        crd.spec.names.plural = "" → validateCRD (some crd) = some "CRD plural name is required")
    ∧ (∀ crd : CustomResourceDefinition, crd.spec.group ≠ "" → crd.spec.names.kind ≠ "" →
        crd.spec.names.plural ≠ "" → crd.spec.versions = [] →
        validateCRD (some crd) = some "CRD must have at least one version")
    ∧ (∀ (crd : CustomResourceDefinition) (e : String), validateCRD (some crd) = some e →
        analyzeCRD (some crd) = Except.error ("CRD validation failed: " ++ e))
    ∧ (∀ info : CRDInfo, info.group = "" → getAPIVersion info = info.version) := by
  refine ⟨?_, ?_, ?_, ?_, ?_, ?_⟩
  · intro crd h
    rw [validateCRD, if_pos h]
  · intro crd hg hk
    rw [validateCRD, if_neg hg, if_pos hk]
  · intro crd hg hk hp
    rw [validateCRD, if_neg hg, if_neg hk, if_pos hp]
  · intro crd hg hk hp hv
    rw [validateCRD, if_neg hg, if_neg hk, if_neg hp, if_pos (by simp [hv])]
  · intro crd e h
    rw [analyzeCRD.eq_def, h]
  · intro info h
    rw [getAPIVersion, if_pos h]

/-- Witness for C6's amended statement: the concrete empty-group CRD. -/
theorem resource_identity_validation_witness :
    validateCRD (some emptyGroupCRD) = some "CRD group is required" :=
  resource_identity_validation.1 emptyGroupCRD rfl

theorem convertSchemaToGoCode_succ_eq (fuel : Nat) (schema : JSONSchemaProps) (indent : Nat) :
    convertSchemaToGoCode (fuel + 1) (some schema) indent =
      "&jsonschema.Schema\x7b\n"
      ++ appendBasicSchemaFields schema (tabs indent)
      ++ appendSchemaValidation schema (tabs indent)
      ++ appendSchemaStructure fuel schema (tabs indent) indent
      ++ tabs indent ++ "\x7d" := by
  have h : convertSchemaToGoCode (fuel + 1) (some schema) indent =
      "&jsonschema.Schema\x7b\n"
      ++ appendBasicSchemaFields schema (tabs indent)
      ++ appendSchemaValidation schema (tabs indent)
      ++ (if !schema.properties.isEmpty then
            tabs indent ++ "\tProperties: map[string]*jsonschema.Schema\x7b\n"
            ++ String.join (schema.properties.map (fun p =>
                tabs indent ++ "\t\t" ++ goQuote p.1 ++ ": "
                ++ convertSchemaToGoCode fuel (some p.2) (indent + 2) ++ ",\n"))
            ++ tabs indent ++ "\t\x7d,\n"
          else "")
      ++ (if !schema.required.isEmpty then
            tabs indent ++ "\tRequired:    []string\x7b"
            ++ String.intercalate ", " (schema.required.map goQuote) ++ "\x7d,\n"
          else "")
      ++ (match schema.items with
          | some (some itemSchema) =>
            tabs indent ++ "\tItems: &jsonschema.Schema"
            ++ convertSchemaToGoCode fuel (some itemSchema) (indent + 1) ++ ",\n"
          | _ => "")
      ++ (match schema.additionalProperties with
          | some (some apSchema) =>
            tabs indent ++ "\tAdditionalProperties: &jsonschema.Schema"
            ++ convertSchemaToGoCode fuel (some apSchema) (indent + 1) ++ ",\n"
          | _ => "")
      ++ tabs indent ++ "\x7d" := rfl
  rw [h, appendSchemaStructure]
  simp only [String.append_assoc]

/-- Claim C1: emission determinism. The same property map presented in
two different iteration orders makes appendSchemaStructure (and hence
convertSchemaToGoCode, the schema.go artifact body) emit different
bytes, so emission is NOT independent of the map iteration order; the
struct-field path (GetStructFields) by contrast sorts by canonical name
and yields the same field order for both presentations. -/
theorem emission_map_order_dependence :
    schemaOrderA.properties.Perm schemaOrderB.properties
    ∧ appendSchemaStructure 4 schemaOrderA (tabs 0) 0 ≠ appendSchemaStructure 4 schemaOrderB (tabs 0) 0
    ∧ convertSchemaToGoCode 5 (some schemaOrderA) 0 ≠ convertSchemaToGoCode 5 (some schemaOrderB) 0
    ∧ structFieldNames (analyzeSchema 10 [] (some schemaOrderA) "Widget" "")
        = structFieldNames (analyzeSchema 10 [] (some schemaOrderB) "Widget" "")
    ∧ structFieldNames (analyzeSchema 10 [] (some schemaOrderA) "Widget" "")
        = ["WidgetAlpha", "WidgetBeta"] := by
  refine ⟨?_, by decide, by decide, by decide, by decide⟩
  exact List.Perm.swap _ _ _

theorem generateFile_ok_effects (cfg : GeneratorConfig) (fileExists hasTemplate : String → Bool)
    (templateName filename : String) (effs : List FSEffect)
    (h : generateFile cfg fileExists hasTemplate templateName filename = Except.ok effs) :
    FSEffect.createFile (cfg.outputDir ++ "/" ++ filename) ∈ effs
    ∧ FSEffect.writeTemplate (cfg.outputDir ++ "/" ++ filename) templateName ∈ effs := by
  simp only [generateFile] at h
  split at h
  · cases h
  · split at h
    · cases h
    · cases h
      constructor <;> · simp

theorem foldl_generateToolsetStep_error (cfg : GeneratorConfig)
    (fileExists hasTemplate : String → Bool) (files : List (String × String)) (m : String) :
    files.foldl (generateToolsetStep cfg fileExists hasTemplate) (Except.error m)
      = Except.error m := by
  induction files with
  | nil => rfl
  | cons f fs ih => rw [List.foldl_cons]; exact ih

theorem foldl_generateToolsetStep_effects (cfg : GeneratorConfig)
    (fileExists hasTemplate : String → Bool) (files : List (String × String)) :
    ∀ (acc effs : List FSEffect),
      files.foldl (generateToolsetStep cfg fileExists hasTemplate) (Except.ok acc)
        = Except.ok effs →
      (∀ e ∈ acc, e ∈ effs)
      ∧ ∀ p ∈ files,
          FSEffect.createFile (cfg.outputDir ++ "/" ++ p.2) ∈ effs
          ∧ FSEffect.writeTemplate (cfg.outputDir ++ "/" ++ p.2) p.1 ∈ effs := by
  induction files with
  | nil =>
    intro acc effs h
    cases h
    exact ⟨fun e he => he, fun p hp => absurd hp (List.not_mem_nil _)⟩
  | cons f fs ih =>
    intro acc effs h
    rw [List.foldl_cons] at h
    cases hgen : generateFile cfg fileExists hasTemplate f.1 f.2 with
    | error m =>
      rw [generateToolsetStep, hgen] at h
      rw [foldl_generateToolsetStep_error] at h
      cases h
    | ok effs' =>
      rw [generateToolsetStep, hgen] at h
      have hrec := ih (acc ++ effs') effs h
      refine ⟨fun e he => hrec.1 e (List.mem_append_left _ he), ?_⟩
      intro p hp
      rcases List.mem_cons.mp hp with rfl | hp
      · have hg := generateFile_ok_effects cfg fileExists hasTemplate p.1 p.2 effs' hgen
        exact ⟨hrec.1 _ (List.mem_append_right _ hg.1),
          hrec.1 _ (List.mem_append_right _ hg.2)⟩
      · exact hrec.2 p hp

/-- Counterexample to claim C8: a successful generator run performs
persistence effects itself (directory creation, file creation, and
rendering templates directly into the created files); it does not
return in-memory artifact strings. -/
theorem generator_persists_counterexample :
    ∃ effs,
      generateToolset
          { outputDir := "out", templateDir := "", packageName := "widgets",
            modulePath := "github.com/example/project", overwriteFiles := true,
            includeComments := true }
          (fun _ => false) (fun _ => true) (some ()) = Except.ok effs
      ∧ FSEffect.mkdirAll "out" ∈ effs
      ∧ FSEffect.createFile "out/toolset.go" ∈ effs
      ∧ FSEffect.writeTemplate "out/schema.go" "schema.go.tmpl" ∈ effs := by
  refine ⟨_, rfl, by decide, by decide, by decide⟩

/-- Claim C8 amended: the generator is NOT side-effect free: every
successful GenerateToolset run creates the output directory and, for
each of the six artifacts, creates the output file and renders its
template directly into that file; persistence happens inside the
generator, not in an external collaborator. -/
theorem generator_persists_files :
    ∀ (cfg : GeneratorConfig) (fileExists hasTemplate : String → Bool)
      (effs : List FSEffect),
      generateToolset cfg fileExists hasTemplate (some ()) = Except.ok effs →
        FSEffect.mkdirAll cfg.outputDir ∈ effs
        ∧ ∀ p ∈ toolsetFiles,
            FSEffect.createFile (cfg.outputDir ++ "/" ++ p.2) ∈ effs
            ∧ FSEffect.writeTemplate (cfg.outputDir ++ "/" ++ p.2) p.1 ∈ effs := by
  intro cfg fileExists hasTemplate effs h
  rw [generateToolset] at h
  have hfold := foldl_generateToolsetStep_effects cfg fileExists hasTemplate toolsetFiles
    [FSEffect.mkdirAll cfg.outputDir] effs h
  exact ⟨hfold.1 _ (List.mem_singleton_self _), hfold.2⟩

/-- Witness for C8's amended statement: the concrete run from the
counterexample, through the general theorem. -/
theorem generator_persists_files_witness :
    FSEffect.mkdirAll "out" ∈
      (match generateToolset
          { outputDir := "out", templateDir := "", packageName := "widgets",
            modulePath := "github.com/example/project", overwriteFiles := true,
            includeComments := true }
          (fun _ => false) (fun _ => true) (some ()) with
        | Except.ok effs => effs
        | Except.error _ => []) :=
  (generator_persists_files
    { outputDir := "out", templateDir := "", packageName := "widgets",
      modulePath := "github.com/example/project", overwriteFiles := true,
      includeComments := true }
    (fun _ => false) (fun _ => true) _ rfl).1

theorem char_ne_of_toNat_ne {c d : Char} (h : c.toNat ≠ d.toNat) : c ≠ d :=
  fun he => h (he ▸ rfl)

end Toolgen

